import Mathlib

/-!
Verification of the fund NAV data/analysis pipeline.

The definitions below are a shallow embedding of the Python sources:
* `fund_data.py` (v3.3): cache read, incremental merge, paginated fetch
  (`fetch_fund_data_from_api`, row-count pagination mode) and the
  orchestrator `get_fund_data` with optional calendar-day forward fill;
* `fund_analysis.py` (v2.1): `calculate_max_drawdown`, `calculate_volatility`,
  `calculate_annual_return`;
* `app/main.py`: the arbitrary-window metric block of `display_fund_analysis`.

Calendar dates are day numbers (`ℕ`); NAV values are `ℚ`.  pandas `NaN`
results are modelled with `Option` (`none` = NaN).  Where the source
computes an irrational float (a square root or a fractional power), the
definition returns the exact rational parts of that expression (radicand,
or base and exponent) and the theorems state the real value via
`Real.sqrt` / real exponentiation applied to those parts.
-/

namespace Fund

/-- A parsed NAV record: one row of the series (`date`, `nav`).  The v3.3
pipeline keeps exactly these two columns (`df[['date', 'nav']]`). -/
structure Row where
  date : ℕ
  nav : ℚ
deriving DecidableEq

/-- A raw row scraped from one page, before `dropna`: either field may be
missing (pandas `NaT`/`NaN`, e.g. from `pd.to_numeric(errors='coerce')`). -/
structure RawRow where
  date? : Option ℕ
  nav? : Option ℚ
deriving DecidableEq

/-- One remote page response, as the fetch loop distinguishes them:
`noData` = the "暂无数据" marker, `parseError` = `pd.read_html` raised,
`table rows` = a parsed table. -/
inductive PageResp where
  | noData
  | parseError
  | table (rows : List RawRow)
deriving DecidableEq

/-- Fixed page size of `fetch_fund_data_from_api` (`per_page = 20`). -/
def perPage : ℕ := 20

/-- `dropna(subset=['date', 'nav'])`: keep only rows where both fields parse. -/
def dropna (l : List RawRow) : List Row :=
  l.filterMap fun r =>
    match r.date?, r.nav? with
    | some d, some v => some ⟨d, v⟩
    | _, _ => none

/-- Date-ordering relation used by `sort_values('date')`. -/
def rowle (a b : Row) : Prop := a.date ≤ b.date

instance : DecidableRel rowle := fun a b => Nat.decLe a.date b.date

instance : IsTotal Row rowle := ⟨fun a b => Nat.le_total a.date b.date⟩

instance : IsTrans Row rowle := ⟨fun _ _ _ => Nat.le_trans⟩

/-- `df.sort_values('date')` (modelled as a stable sort by date). -/
def sortByDate (l : List Row) : List Row := l.insertionSort rowle

/-- One pass of `drop_duplicates(subset=['date'])` (keep `'first'`):
a row is kept exactly when its date has not been seen before it. -/
def dedupGo (seen : List ℕ) : List Row → List Row
  | [] => []
  | r :: rs =>
    if seen.contains r.date then dedupGo seen rs
    else r :: dedupGo (r.date :: seen) rs

/-- `df.drop_duplicates(subset=['date'])` with pandas' default
`keep='first'`: the first row of each date survives. -/
def dedupByDate (l : List Row) : List Row := dedupGo [] l

/-- Post-processing at the end of `fetch_fund_data_from_api`:
`dropna` → `sort_values('date')` → `drop_duplicates(subset=['date'])`. -/
def postProcess (raw : List RawRow) : List Row :=
  dedupByDate (sortByDate (dropna raw))

/-- The pagination loop of `fetch_fund_data_from_api`.  Requesting page `pg`
consumes the head of `pages` (an exhausted environment answers `noData`).
Returns `none` when the loop does `return pd.DataFrame()` (parse error on
page 1), otherwise the accumulated raw rows, paired with the number of
pages requested. -/
def fetchLoop : List PageResp → List RawRow → ℕ → Option (List RawRow) × ℕ
  | [], acc, _ => (some acc, 1)
  | PageResp.noData :: _, acc, _ => (some acc, 1)
  | PageResp.parseError :: _, acc, pg =>
    (if pg = 1 then none else some acc, 1)
  | PageResp.table rows :: rest, acc, pg =>
    if rows.isEmpty then (some acc, 1)
    else if rows.length < perPage then (some (acc ++ rows), 1)
    else
      let r := fetchLoop rest (acc ++ rows) (pg + 1)
      (r.1, r.2 + 1)

/-- The raw rows of one page (empty for non-table responses). -/
def pageRows : PageResp → List RawRow
  | PageResp.table rows => rows
  | _ => []

/-- All raw rows of a run of pages, in request order. -/
def joinRows (ps : List PageResp) : List RawRow :=
  (ps.map pageRows).flatten

/-- A page response that parses to exactly `perPage` rows (so the loop's
row-count check sees a full page and continues). -/
def isFullPage : PageResp → Bool
  | PageResp.table rows => rows.length == perPage
  | _ => false

/-- `n` consecutive valid raw rows starting at day `a`, nav 1 (used as a
concrete remote environment in witnesses). -/
def demoRows (a n : ℕ) : List RawRow :=
  (List.range' a n).map fun d => ⟨some d, some 1⟩

/-- `fetch_fund_data_from_api` (row-count pagination mode): run the page
loop from page 1, then post-process.  Also reports how many pages were
requested. -/
def fetch_fund_data_from_api (pages : List PageResp) : List Row × ℕ :=
  match fetchLoop pages [] 1 with
  | (none, n) => ([], n)
  | (some acc, n) => (postProcess acc, n)

/-- Incremental merge in `get_fund_data`:
`pd.concat([cached_data, new_data])` → `drop_duplicates(subset=['date'])`
(first = cached occurrence wins) → `sort_values('date')`. -/
def mergeSeries (cached newData : List Row) : List Row :=
  sortByDate (dedupByDate (cached ++ newData))

/-- `df['date'].max()` (0 on an empty frame; unreachable there). -/
def maxDate : List Row → ℕ
  | [] => 0
  | r :: rs => rs.foldl (fun m x => max m x.date) r.date

/-- `df['date'].min()` (0 on an empty frame; unreachable there). -/
def minDate : List Row → ℕ
  | [] => 0
  | r :: rs => rs.foldl (fun m x => min m x.date) r.date

/-- The nav stored at an exact date, if any (first matching row). -/
def lookupDate (df : List Row) (d : ℕ) : Option ℚ :=
  (df.find? fun r => r.date == d).map Row.nav

/-- Calendar days `a, a+1, …, b` (`pd.date_range(start=a, end=b, freq='D')`). -/
def dateRange (a b : ℕ) : List ℕ := List.range' a (b + 1 - a)

/-- The last (on a sorted series: the most recent) row dated at or before
day `d`.  This follows the spec's words "the most recent earlier trading
day" and is compared against the code's reindex/ffill walk. -/
def lastLE (df : List Row) (d : ℕ) : Option Row :=
  (df.filter fun r => decide (r.date ≤ d)).getLast?

/-- The last row dated strictly before day `d` (the value the forward
fill carries into day `d`). -/
def lastLT (df : List Row) (d : ℕ) : Option Row :=
  (df.filter fun r => decide (r.date < d)).getLast?

/-- One day of the `reindex` + `ffill` walk: the day's own stored value if
present, otherwise the value carried forward from earlier days. -/
def ffillStep (df : List Row) (last : Option ℚ) (d : ℕ) : Option ℚ :=
  match lookupDate df d with
  | some v => some v
  | none => last

/-- The `reindex` + `ffill` walk: each day takes its own stored value if
present, otherwise the carried value of the most recent earlier day; a day
before the first known value stays absent (pandas keeps a NaN row there,
which never happens on the actual call because the range starts at the
series minimum). -/
def ffillGo (df : List Row) : Option ℚ → List ℕ → List Row
  | _, [] => []
  | last, d :: ds =>
    match ffillStep df last d with
    | some v => ⟨d, v⟩ :: ffillGo df (some v) ds
    | none => ffillGo df none ds

/-- The `fill_missing` block of `get_fund_data`: reindex over every calendar
day between the series min and max date and forward-fill. -/
def fillMissing (df : List Row) : List Row :=
  match df with
  | [] => []
  | _ => ffillGo df none (dateRange (minDate df) (maxDate df))

/-- `if fill_missing and not df.empty: …` -/
def applyFill (flag : Bool) (df : List Row) : List Row :=
  if flag then fillMissing df else df

/-- A persisted cache entry: the stored series plus the calendar date of
`last_update` (only the calendar date takes part in freshness decisions). -/
structure CacheEntry where
  series : List Row
  lastUpdate : ℕ
deriving DecidableEq

/-- The state a `get_fund_data` call runs against: the cache on disk, the
current calendar date, and the remote page responses. -/
structure FundState where
  cache : Option CacheEntry
  today : ℕ
  pages : List PageResp
deriving DecidableEq

/-- Outcome of one `get_fund_data` call: the returned series, the cache
afterwards, and whether `fetch_fund_data_from_api` was called at all. -/
structure FetchOutcome where
  series : List Row
  cache' : Option CacheEntry
  fetched : Bool
deriving DecidableEq

/-- `get_fund_data` (v3.3 orchestrator).  Paths, in source order:
same-day-fresh cache returned verbatim (before the fill block); stale cache
with `today > cached max date` hits the remote and merges (persisting) when
rows come back; otherwise the cache is reused; no cache means a full fetch,
persisted when non-empty.  The fill block runs on every path except the
same-day-fresh early return. -/
def get_fund_data (st : FundState) (fillFlag : Bool) : FetchOutcome :=
  match st.cache with
  | some entry =>
    if entry.lastUpdate = st.today then
      ⟨entry.series, some entry, false⟩
    else
      if maxDate entry.series < st.today then
        let newData := (fetch_fund_data_from_api st.pages).1
        if newData.isEmpty then
          ⟨applyFill fillFlag entry.series, some entry, true⟩
        else
          let df := mergeSeries entry.series newData
          ⟨applyFill fillFlag df, some ⟨df, st.today⟩, true⟩
      else
        ⟨applyFill fillFlag entry.series, some entry, false⟩
  | none =>
    let df := (fetch_fund_data_from_api st.pages).1
    ⟨applyFill fillFlag df, if df.isEmpty then none else some ⟨df, st.today⟩, true⟩

/-! ## Metrics engine (`fund_analysis.py`, v2.1) -/

/-- Minimum of a nav/drawdown series (`Series.min()`; the empty case is
NaN in pandas, modelled as 0 and unreachable under the non-empty guards). -/
def listMin : List ℚ → ℚ
  | [] => 0
  | x :: xs => xs.foldl min x

/-- `np.maximum.accumulate` continuation: running maxima of `xs` seeded
with the maximum `m` reached so far. -/
def accumMax (m : ℚ) : List ℚ → List ℚ
  | [] => []
  | y :: ys => max m y :: accumMax (max m y) ys

/-- `np.maximum.accumulate(nav_series)`: entry `t` is the maximum of the
series up to and including `t`. -/
def runningMax : List ℚ → List ℚ
  | [] => []
  | x :: xs => x :: accumMax x xs

/-- `calculate_max_drawdown`: `(nav - running_max) / running_max`, take the
minimum, express as a percentage. -/
def calculate_max_drawdown (s : List ℚ) : ℚ :=
  let drawdown := List.zipWith (fun n m => (n - m) / m) s (runningMax s)
  listMin drawdown * 100

/-- The claim's "running_max = cumulative maximum up to and including t",
spelled independently of the code: the maximum of the first `t+1` entries. -/
def cumMax (s : List ℚ) (t : ℕ) : ℚ :=
  match s with
  | [] => 0
  | x :: xs => (xs.take t).foldl max x

/-- The claim's drawdown at index `t`:
`(nav[t] - running_max[t]) / running_max[t]`. -/
def drawdownAt (s : List ℚ) (t : ℕ) : ℚ :=
  (s.getD t 0 - cumMax s t) / cumMax s t

/-- The claim's max drawdown: `min over t` of `drawdownAt`, as a
percentage. -/
def drawdownSpec (s : List ℚ) : ℚ :=
  listMin ((List.range s.length).map fun t => drawdownAt s t) * 100

/-- `Series.pct_change().dropna()`: day-over-day relative changes. -/
def pctChanges (navs : List ℚ) : List ℚ :=
  List.zipWith (fun a b => b / a - 1) navs navs.tail

/-- Arithmetic mean of a rational list (0 on empty; callers guard). -/
def listMean (l : List ℚ) : ℚ := l.sum / l.length

/-- Sum of squared deviations from the mean. -/
def sumSqDev (l : List ℚ) : ℚ :=
  (l.map fun x => (x - listMean l) ^ 2).sum

/-- pandas `Series.var()` (sample variance, `ddof=1`): `NaN` (modelled
`none`) on fewer than two samples.  The standard deviation of the source is
`√·` of this, which is NaN exactly when this is `none`. -/
def sampleVar (l : List ℚ) : Option ℚ :=
  if 2 ≤ l.length then some (sumSqDev l / ((l.length : ℚ) - 1))
  else none

/-- `calculate_volatility`, represented by the radicand of the float it
computes: the source value is `std(returns) · √periods_per_year · 100 =
√(result) · 100`, so it is NaN exactly when this is `none`. -/
def calculate_volatility (navs : List ℚ) (periodsPerYear : ℕ) : Option ℚ :=
  (sampleVar (pctChanges navs)).map fun v => v * periodsPerYear

/-- `calculate_annual_return`, represented by the base and exponent of the
float power it computes: the source value is
`(base ^ exponent − 1) × 100` (a real power).  `base` is
`1 + total_return` with `total_return = nav[last]/nav[first] − 1`, and the
exponent is `periods_per_year / days` where the source's `days` variable is
`len(nav_series)` — the row count.  (Callers never pass an empty series;
the 0 defaults are unreachable.) -/
def calculate_annual_return (s : List ℚ) (periodsPerYear : ℕ) : ℚ × ℚ :=
  (1 + (s.getLastD 0 / s.headD 0 - 1), (periodsPerYear : ℚ) / (s.length : ℚ))

/-! ## Arbitrary-window metric block (`app/main.py`, `display_fund_analysis`)

The UI slices the series to the chosen window (`period_df`) and, when the
window is non-empty and `start_date <= end_date`, computes the metrics
below; otherwise it shows the error `st.error("请选择有效的投资区间")`.
The volatility denominator is `trading_days - 1`; with a single row the
sum of squared deviations is `0.0` and `0.0 / 0` is numpy `NaN`, modelled
as `none`. -/

/-- Metrics of the non-money-fund branch.  Real-valued quantities are
carried by their algebraic parts: `annualReturn` holds the base and
exponent of the float power `(base ^ exponent − 1) × 100`, and
`volatility` the radicand of `√· × 100` (NaN = `none`). -/
structure NonMoneyMetrics where
  periodReturn : ℚ
  annualReturn : ℚ × ℚ
  volatility : Option ℚ
  maxDrawdown : ℚ
deriving DecidableEq

/-- Metrics of the money-fund branch (`annualReturn` as base/exponent of
the float power `(base ^ exponent − 1) × 100`). -/
structure MoneyMetrics where
  cumulativeReturn : ℚ
  annualReturn : ℚ × ℚ
deriving DecidableEq

/-- `period_df['daily_return'].mean()`: pandas mean skips the leading NaN
of `pct_change`; with no valid entry the mean itself is NaN (`none`). -/
def nanMean (l : List ℚ) : Option ℚ :=
  if l.length = 0 then none else some (listMean l)

/-- `((daily_return - mean_return) ** 2).sum()`: NaN entries are skipped by
`.sum()`, so an all-NaN column sums to `0.0`. -/
def sumSqDevNaN (l : List ℚ) : ℚ :=
  match nanMean l with
  | none => 0
  | some m => (l.map fun x => (x - m) ^ 2).sum

/-- Window volatility of the UI block, as the radicand of
`np.sqrt(Σ(r - mean)² / (trading_days - 1)) * 100`: the float value is
`√result × 100`.  The division by zero at `trading_days = 1` yields NaN
(`none`; the numerator is `0.0` there, so numpy gives `0.0 / 0 = NaN`). -/
def windowVolatility (navs : List ℚ) : Option ℚ :=
  let ss := sumSqDevNaN (pctChanges navs)
  if navs.length - 1 = 0 then none
  else some (ss / ((navs.length : ℚ) - 1))

/-- Window max drawdown of the UI block: expanding max, drawdown
percentage, absolute value of the minimum. -/
def windowMaxDrawdown (navs : List ℚ) : ℚ :=
  |listMin (List.zipWith (fun n m => (n - m) / m * 100) navs (runningMax navs))|

/-- The metric computation of `display_fund_analysis` for the selected
window: `navs` are the window's nav values (`period_df['nav']`),
`startD`/`endD` the chosen dates.  Empty window or inverted dates take the
`st.error` branch. -/
def display_fund_analysis (isMoneyFund : Bool) (navs : List ℚ)
    (startD endD : ℕ) : Except String (MoneyMetrics ⊕ NonMoneyMetrics) :=
  if navs.isEmpty || decide (endD < startD) then
    Except.error "请选择有效的投资区间"
  else
    let tradingDays : ℕ := navs.length
    let calendarDays : ℕ := endD - startD + 1
    if isMoneyFund then
      let totalIncome : ℚ := navs.sum
      let cumulativeReturn : ℚ := totalIncome / 10000 * 100
      Except.ok (Sum.inl ⟨cumulativeReturn,
        (1 + cumulativeReturn / 100, (365 : ℚ) / (calendarDays : ℚ))⟩)
    else
      let periodReturn : ℚ := (navs.getLastD 0 / navs.headD 0 - 1) * 100
      Except.ok (Sum.inr ⟨periodReturn,
        (1 + periodReturn / 100, (252 : ℚ) / (tradingDays : ℚ)),
        windowVolatility navs, windowMaxDrawdown navs⟩)

/-! ## Series invariants -/

/-- All dates of the series are pairwise distinct. -/
def DistinctDates (l : List Row) : Prop :=
  l.Pairwise fun a b => a.date ≠ b.date

/-- The series is strictly ascending by date (sorted and duplicate-free). -/
def SortedDistinct (l : List Row) : Prop :=
  l.Pairwise fun a b => a.date < b.date

instance (l : List Row) : Decidable (DistinctDates l) := by
  unfold DistinctDates; infer_instance

instance (l : List Row) : Decidable (SortedDistinct l) := by
  unfold SortedDistinct; infer_instance

lemma SortedDistinct.distinct {l : List Row} (h : SortedDistinct l) :
    DistinctDates l :=
  h.imp fun hab => Nat.ne_of_lt hab

lemma sortedDistinct_of_sorted_distinct {l : List Row}
    (hs : List.Sorted rowle l) (hd : DistinctDates l) : SortedDistinct l := by
  have := List.Pairwise.and hs hd
  exact this.imp fun hab => lt_of_le_of_ne hab.1 hab.2

/-! ## `dedupByDate` lemmas -/

lemma dedupGo_sublist :
    ∀ (l : List Row) (seen : List ℕ), List.Sublist (dedupGo seen l) l
  | [], _ => by simp [dedupGo]
  | r :: rs, seen => by
    cases hc : seen.contains r.date
    · simp only [dedupGo, hc, Bool.false_eq_true, if_false]
      exact (dedupGo_sublist rs (r.date :: seen)).cons₂ r
    · simp only [dedupGo, hc, if_true]
      exact (dedupGo_sublist rs seen).cons r

lemma dedupByDate_sublist (l : List Row) : List.Sublist (dedupByDate l) l :=
  dedupGo_sublist l []

lemma mem_of_mem_dedupByDate {l : List Row} {r : Row}
    (h : r ∈ dedupByDate l) : r ∈ l :=
  (dedupByDate_sublist l).mem h

lemma dedupGo_distinct :
    ∀ (l : List Row) (seen : List ℕ),
      DistinctDates (dedupGo seen l) ∧
        ∀ r ∈ dedupGo seen l, seen.contains r.date = false
  | [], seen => by simp [dedupGo, DistinctDates]
  | r :: rs, seen => by
    cases hc : seen.contains r.date
    · have ih := dedupGo_distinct rs (r.date :: seen)
      simp only [dedupGo, hc, Bool.false_eq_true, if_false]
      constructor
      · refine List.Pairwise.cons ?_ ih.1
        intro x hx
        have hmem := ih.2 x hx
        simp only [List.contains_cons, Bool.or_eq_false_iff] at hmem
        exact fun h => by simp [h] at hmem
      · intro x hx
        rcases List.mem_cons.mp hx with h | h
        · rw [h]; exact hc
        · have hmem := ih.2 x h
          simp only [List.contains_cons, Bool.or_eq_false_iff] at hmem
          exact hmem.2
    · have ih := dedupGo_distinct rs seen
      simp only [dedupGo, hc, if_true]
      exact ih

lemma dedupByDate_distinct (l : List Row) : DistinctDates (dedupByDate l) :=
  (dedupGo_distinct l []).1

lemma dedupGo_eq_self :
    ∀ (l : List Row) (seen : List ℕ), DistinctDates l →
      (∀ r ∈ l, seen.contains r.date = false) → dedupGo seen l = l
  | [], _, _, _ => rfl
  | r :: rs, seen, hd, hs => by
    have hc : seen.contains r.date = false := hs r (List.mem_cons_self r rs)
    unfold DistinctDates at hd
    rw [List.pairwise_cons] at hd
    simp only [dedupGo, hc, Bool.false_eq_true, if_false]
    congr 1
    refine dedupGo_eq_self rs (r.date :: seen) hd.2 ?_
    intro x hx
    have h1 : seen.contains x.date = false := hs x (List.mem_cons_of_mem r hx)
    simp only [List.contains_cons, h1, Bool.or_false]
    exact beq_eq_false_iff_ne.mpr fun he => hd.1 x hx he.symm

lemma dedupByDate_eq_self {l : List Row} (h : DistinctDates l) :
    dedupByDate l = l :=
  dedupGo_eq_self l [] h (by simp)

/-! ## `sortByDate` lemmas -/

lemma sortByDate_perm (l : List Row) : List.Perm (sortByDate l) l :=
  List.perm_insertionSort rowle l

lemma sortByDate_sorted (l : List Row) : List.Sorted rowle (sortByDate l) :=
  List.sorted_insertionSort rowle l

lemma sortByDate_distinct {l : List Row} (h : DistinctDates l) :
    DistinctDates (sortByDate l) :=
  ((sortByDate_perm l).pairwise_iff fun hab => (Ne.symm hab)).mpr h

lemma sortByDate_eq_self {l : List Row} (h : List.Sorted rowle l) :
    sortByDate l = l :=
  List.Sorted.insertionSort_eq h

/-- `mergeSeries` always yields a strictly date-sorted series. -/
lemma mergeSeries_sortedDistinct (cached newData : List Row) :
    SortedDistinct (mergeSeries cached newData) :=
  sortedDistinct_of_sorted_distinct (sortByDate_sorted _)
    (sortByDate_distinct (dedupByDate_distinct _))

/-- `postProcess` always yields a strictly date-sorted series. -/
lemma postProcess_sortedDistinct (raw : List RawRow) :
    SortedDistinct (postProcess raw) := by
  refine sortedDistinct_of_sorted_distinct ?_ (dedupByDate_distinct _)
  exact (sortByDate_sorted (dropna raw)).sublist (dedupByDate_sublist _)

/-- The fetcher always yields a strictly date-sorted series. -/
lemma fetch_sortedDistinct (pages : List PageResp) :
    SortedDistinct (fetch_fund_data_from_api pages).1 := by
  unfold fetch_fund_data_from_api
  rcases h : fetchLoop pages [] 1 with ⟨acc, n⟩
  cases acc with
  | none => exact List.Pairwise.nil
  | some a => exact postProcess_sortedDistinct a

/-! ## Pagination loop lemmas -/

/-- Walking a run of full pages (exactly `perPage` rows each) accumulates
all their rows and adds one request per page. -/
lemma fetchLoop_append_full :
    ∀ front : List PageResp,
      (∀ p ∈ front, isFullPage p = true) →
      ∀ (tailPages : List PageResp) (acc : List RawRow) (pg : ℕ),
        fetchLoop (front ++ tailPages) acc pg =
          ((fetchLoop tailPages (acc ++ joinRows front) (pg + front.length)).1,
           (fetchLoop tailPages (acc ++ joinRows front) (pg + front.length)).2
             + front.length) := by
  intro front
  induction front with
  | nil => intro _ tailPages acc pg; simp [joinRows]
  | cons p front ih =>
    intro hfull tailPages acc pg
    have hp := hfull p (List.mem_cons_self p front)
    obtain ⟨rows, rfl, hlen⟩ :
        ∃ rows, p = PageResp.table rows ∧ rows.length = perPage := by
      cases p with
      | table rows => exact ⟨rows, rfl, by simpa [isFullPage] using hp⟩
      | noData => simp [isFullPage] at hp
      | parseError => simp [isFullPage] at hp
    have hne : rows ≠ [] := by
      intro h
      rw [h] at hlen
      simp [perPage] at hlen
    have hemp : rows.isEmpty = false := by
      simpa [List.isEmpty_iff] using hne
    have hnlt : ¬ rows.length < perPage := by omega
    have ihr := ih (fun q hq => hfull q (List.mem_cons_of_mem _ hq))
      tailPages (acc ++ rows) (pg + 1)
    have e1 : acc ++ rows ++ joinRows front =
        acc ++ joinRows (PageResp.table rows :: front) := by
      simp [joinRows, pageRows, List.append_assoc]
    have e2 : pg + 1 + front.length =
        pg + (PageResp.table rows :: front).length := by
      simp only [List.length_cons]
      omega
    rw [e1, e2] at ihr
    simp only [List.length_cons] at ihr
    simp only [List.cons_append, fetchLoop, hemp, Bool.false_eq_true,
      if_false, hnlt, List.append_eq, List.length_cons]
    rw [ihr]
    simp only [Prod.mk.injEq]
    exact ⟨trivial, by omega⟩


/-- A table with some but fewer than `perPage` rows is the final page. -/
lemma fetchLoop_lastPage {lastRows : List RawRow} (rest : List PageResp)
    (acc : List RawRow) (pg : ℕ) (h1 : lastRows ≠ [])
    (h2 : lastRows.length < perPage) :
    fetchLoop (PageResp.table lastRows :: rest) acc pg =
      (some (acc ++ lastRows), 1) := by
  have hemp : lastRows.isEmpty = false := by
    simpa [List.isEmpty_iff] using h1
  simp [fetchLoop, hemp, h2]

/-- A parse error on a page after the first ends the loop with the rows
accumulated so far. -/
lemma fetchLoop_parseError (rest : List PageResp) (acc : List RawRow)
    {pg : ℕ} (h : pg ≠ 1) :
    fetchLoop (PageResp.parseError :: rest) acc pg = (some acc, 1) := by
  simp [fetchLoop, h]

/-- When the rows scraped are duplicate-free, post-processing is just a
permutation (sorting) of the parsed rows. -/
lemma postProcess_perm {raw : List RawRow} (h : DistinctDates (dropna raw)) :
    List.Perm (postProcess raw) (dropna raw) := by
  unfold postProcess
  rw [dedupByDate_eq_self (sortByDate_distinct h)]
  exact sortByDate_perm _

/-- A run of full pages followed by a short page: the loop stops right
after the short page, having accumulated every row. -/
lemma fetch_full_then_short {front : List PageResp} {lastRows : List RawRow}
    (rest : List PageResp) (hfull : ∀ p ∈ front, isFullPage p = true)
    (h1 : lastRows ≠ []) (h2 : lastRows.length < perPage) :
    fetch_fund_data_from_api (front ++ PageResp.table lastRows :: rest) =
      (postProcess (joinRows front ++ lastRows), front.length + 1) := by
  unfold fetch_fund_data_from_api
  rw [fetchLoop_append_full front hfull (PageResp.table lastRows :: rest) [] 1,
    fetchLoop_lastPage rest _ _ h1 h2]
  simp [Nat.add_comm]

/-- A parse error on the first page: empty result, one request. -/
lemma fetch_first_parseError (rest : List PageResp) :
    fetch_fund_data_from_api (PageResp.parseError :: rest) = ([], 1) := rfl

/-- A run of full pages followed by a parse error: the loop stops at the
failing page and keeps the rows accumulated before it. -/
lemma fetch_full_then_parseError {front : List PageResp}
    (rest : List PageResp) (hne : front ≠ [])
    (hfull : ∀ p ∈ front, isFullPage p = true) :
    fetch_fund_data_from_api (front ++ PageResp.parseError :: rest) =
      (postProcess (joinRows front), front.length + 1) := by
  unfold fetch_fund_data_from_api
  rw [fetchLoop_append_full front hfull (PageResp.parseError :: rest) [] 1,
    fetchLoop_parseError rest _ (by
      intro h
      exact hne (List.eq_nil_of_length_eq_zero (by omega)))]
  simp [Nat.add_comm]

/-- C5: In row-count pagination mode, the fetcher requests consecutive
pages and stops exactly after the first page that returns fewer rows than
the fixed page size (`perPage = 20`), returning all rows accumulated up to
and including that page: after a run of full pages and one short non-empty
page it has made `front.length + 1` requests, its result is the
post-processed accumulation of every scraped row, and when those rows are
valid and duplicate-free the result is exactly a permutation (the
date-sorting) of them.  The scenario pages `[20, 20, 20, 15]` → stop after
page 4 with all 75 rows is the witness. -/
theorem claim_C5 (front : List PageResp) (lastRows : List RawRow)
    (rest : List PageResp)
    (hfull : ∀ p ∈ front, isFullPage p = true)
    (h1 : lastRows ≠ []) (h2 : lastRows.length < perPage) :
    (fetch_fund_data_from_api (front ++ PageResp.table lastRows :: rest)).2 =
      front.length + 1 ∧
    (fetch_fund_data_from_api (front ++ PageResp.table lastRows :: rest)).1 =
      postProcess (joinRows front ++ lastRows) ∧
    (DistinctDates (dropna (joinRows front ++ lastRows)) →
      List.Perm
        (fetch_fund_data_from_api (front ++ PageResp.table lastRows :: rest)).1
        (dropna (joinRows front ++ lastRows))) := by
  have h := fetch_full_then_short rest hfull h1 h2
  refine ⟨by rw [h], by rw [h], fun hd => ?_⟩
  rw [h]
  exact postProcess_perm hd

/-- Witness for C5 at the spec's scenario: page sizes `[20, 20, 20, 15]`
stop after the 4th page and all 75 rows are returned. -/
theorem claim_C5_witness :
    (fetch_fund_data_from_api
      [PageResp.table (demoRows 0 20), PageResp.table (demoRows 20 20),
       PageResp.table (demoRows 40 20), PageResp.table (demoRows 60 15)]).2
        = 4 ∧
    (fetch_fund_data_from_api
      [PageResp.table (demoRows 0 20), PageResp.table (demoRows 20 20),
       PageResp.table (demoRows 40 20), PageResp.table (demoRows 60 15)]).1.length
        = 75 := by
  have h := claim_C5
    [PageResp.table (demoRows 0 20), PageResp.table (demoRows 20 20),
     PageResp.table (demoRows 40 20)]
    (demoRows 60 15) [] (by decide) (by decide) (by decide)
  exact ⟨h.1, by decide⟩

/-- C6: A parse failure on the first page of a from-scratch fetch yields
the no-data outcome (`([], 1)`), and the orchestrator (no cache present)
returns an empty series, persisting nothing, rather than raising; a parse
failure on a later page stops the fetcher with exactly the rows
accumulated from the earlier pages (a permutation of them when they are
valid and duplicate-free). -/
theorem claim_C6 :
    (∀ (rest : List PageResp) (st : FundState) (f : Bool),
      st.pages = PageResp.parseError :: rest → st.cache = none →
      fetch_fund_data_from_api st.pages = ([], 1) ∧
      (get_fund_data st f).series = [] ∧ (get_fund_data st f).cache' = none) ∧
    (∀ (front rest : List PageResp), front ≠ [] →
      (∀ p ∈ front, isFullPage p = true) →
      (fetch_fund_data_from_api (front ++ PageResp.parseError :: rest)).1 =
        postProcess (joinRows front) ∧
      (fetch_fund_data_from_api (front ++ PageResp.parseError :: rest)).2 =
        front.length + 1 ∧
      (DistinctDates (dropna (joinRows front)) →
        List.Perm
          (fetch_fund_data_from_api (front ++ PageResp.parseError :: rest)).1
          (dropna (joinRows front)))) := by
  constructor
  · intro rest st f hpages hcache
    refine ⟨by rw [hpages]; exact fetch_first_parseError rest, ?_, ?_⟩
    · unfold get_fund_data
      simp [hcache, hpages, fetch_first_parseError, applyFill, fillMissing]
    · unfold get_fund_data
      simp [hcache, hpages, fetch_first_parseError]
  · intro front rest hne hfull
    have h := fetch_full_then_parseError rest hne hfull
    refine ⟨by rw [h], by rw [h], fun hd => ?_⟩
    rw [h]
    exact postProcess_perm hd

/-- Witness for C6: a first-page failure makes the orchestrator return an
empty series; a page-3 failure after two full pages keeps the 40
accumulated rows. -/
theorem claim_C6_witness :
    (get_fund_data ⟨none, 0, [PageResp.parseError]⟩ true).series = [] ∧
    (fetch_fund_data_from_api
      [PageResp.table (demoRows 0 20), PageResp.table (demoRows 20 20),
       PageResp.parseError]).1.length = 40 ∧
    (fetch_fund_data_from_api
      [PageResp.table (demoRows 0 20), PageResp.table (demoRows 20 20),
       PageResp.parseError]).2 = 3 := by
  have ha := claim_C6.1 [] ⟨none, 0, [PageResp.parseError]⟩ true rfl rfl
  have hb := claim_C6.2
    [PageResp.table (demoRows 0 20), PageResp.table (demoRows 20 20)] []
    (by decide) (by decide)
  exact ⟨ha.2.1, by decide, hb.2.1⟩

/-! ## Merge lemmas -/

/-- When the cached and the fresh ranges are disjoint (`≤ D` vs `> D`),
nothing is deduplicated and the merge is literally cached ++ fresh. -/
lemma mergeSeries_append {cached newData : List Row} {D : ℕ}
    (hc : SortedDistinct cached) (hn : SortedDistinct newData)
    (hcle : ∀ r ∈ cached, r.date ≤ D) (hngt : ∀ r ∈ newData, D < r.date) :
    mergeSeries cached newData = cached ++ newData := by
  unfold mergeSeries
  have hdist : DistinctDates (cached ++ newData) :=
    List.pairwise_append.mpr ⟨hc.distinct, hn.distinct, fun a ha b hb =>
      Nat.ne_of_lt (lt_of_le_of_lt (hcle a ha) (hngt b hb))⟩
  rw [dedupByDate_eq_self hdist]
  apply sortByDate_eq_self
  exact List.pairwise_append.mpr ⟨hc.imp le_of_lt, hn.imp le_of_lt,
    fun a ha b hb => le_of_lt (lt_of_le_of_lt (hcle a ha) (hngt b hb))⟩

/-- The first occurrence of a date survives `dedupGo`. -/
lemma dedupGo_mem_first :
    ∀ (l₁ : List Row) (r : Row) (l₂ : List Row) (seen : List ℕ),
      (∀ x ∈ l₁, x.date ≠ r.date) → seen.contains r.date = false →
      r ∈ dedupGo seen (l₁ ++ r :: l₂)
  | [], r, l₂, seen, _, hc => by
    simp only [List.nil_append, dedupGo, hc, Bool.false_eq_true, if_false]
    exact List.mem_cons_self r _
  | x :: l₁, r, l₂, seen, hpre, hc => by
    have hx : x.date ≠ r.date := hpre x (List.mem_cons_self x l₁)
    have hpre' : ∀ y ∈ l₁, y.date ≠ r.date :=
      fun y hy => hpre y (List.mem_cons_of_mem x hy)
    cases hcx : seen.contains x.date
    · simp only [List.cons_append, dedupGo, hcx, Bool.false_eq_true, if_false]
      refine List.mem_cons_of_mem x ?_
      refine dedupGo_mem_first l₁ r l₂ (x.date :: seen) hpre' ?_
      simp only [List.contains_cons, hc, Bool.or_false]
      exact beq_eq_false_iff_ne.mpr fun he => hx he.symm
    · simp only [List.cons_append, dedupGo, hcx, if_true]
      exact dedupGo_mem_first l₁ r l₂ seen hpre' hc

/-- Every row of a duplicate-free cached series survives the merge
untouched (pandas keeps the first occurrence, and the cached rows come
first in the concatenation). -/
lemma cached_mem_merge {cached newData : List Row} {r : Row}
    (hd : DistinctDates cached) (hr : r ∈ cached) :
    r ∈ mergeSeries cached newData := by
  obtain ⟨l₁, l₂, rfl⟩ := List.append_of_mem hr
  have hpre : ∀ x ∈ l₁, x.date ≠ r.date := by
    have := List.pairwise_append.mp
      (by simpa [DistinctDates] using hd :
        List.Pairwise (fun a b => a.date ≠ b.date) (l₁ ++ r :: l₂))
    exact fun x hx => this.2.2 x hx r (List.mem_cons_self r l₂)
  unfold mergeSeries dedupByDate
  rw [(sortByDate_perm _).mem_iff]
  have : l₁ ++ r :: l₂ ++ newData = l₁ ++ r :: (l₂ ++ newData) := by
    simp [List.append_assoc]
  rw [this]
  exact dedupGo_mem_first l₁ r (l₂ ++ newData) [] hpre rfl

/-- On a duplicate-free series, looking a member row's date up returns
that row's nav. -/
lemma lookupDate_eq_of_mem :
    ∀ {l : List Row} {r : Row}, DistinctDates l → r ∈ l →
      lookupDate l r.date = some r.nav := by
  intro l
  induction l with
  | nil => intro r _ hr; cases hr
  | cons x xs ih =>
    intro r hd hr
    unfold DistinctDates at hd
    rw [List.pairwise_cons] at hd
    rcases List.mem_cons.mp hr with h | h
    · subst h
      unfold lookupDate
      rw [List.find?_cons_of_pos _ (by simp)]
      rfl
    · have hne : (x.date == r.date) = false :=
        beq_eq_false_iff_ne.mpr (hd.1 r h)
      unfold lookupDate
      rw [List.find?_cons_of_neg _ (by simp [hne])]
      exact ih hd.2 h

/-! ## Orchestrator path lemmas -/

/-- `get_fund_data` preserves the strict date-sortedness invariant: any
cache it writes, and (without the fill step) any series it returns, is
strictly ascending in date, provided the cache it started from was. -/
lemma get_fund_data_invariant (st : FundState) (f : Bool)
    (hinv : ∀ e, st.cache = some e → SortedDistinct e.series) :
    (∀ e', (get_fund_data st f).cache' = some e' → SortedDistinct e'.series) ∧
    (f = false → SortedDistinct (get_fund_data st f).series) := by
  rcases hc : st.cache with _ | e
  · by_cases hemp : ((fetch_fund_data_from_api st.pages).1).isEmpty
    · refine ⟨fun e' he' => ?_, fun hf => ?_⟩
      · simp [get_fund_data, hc, hemp] at he'
      · subst hf
        simpa [get_fund_data, hc, hemp, applyFill] using
          fetch_sortedDistinct st.pages
    · refine ⟨fun e' he' => ?_, fun hf => ?_⟩
      · simp [get_fund_data, hc, hemp] at he'
        rw [he'.symm]
        exact fetch_sortedDistinct st.pages
      · subst hf
        simpa [get_fund_data, hc, hemp, applyFill] using
          fetch_sortedDistinct st.pages
  · have he : SortedDistinct e.series := hinv e hc
    by_cases h1 : e.lastUpdate = st.today
    · refine ⟨fun e' he' => ?_, fun hf => ?_⟩
      · simp [get_fund_data, hc, h1] at he'
        rw [he'.symm]
        exact he
      · simpa [get_fund_data, hc, h1] using he
    · by_cases h2 : maxDate e.series < st.today
      · by_cases hemp : ((fetch_fund_data_from_api st.pages).1).isEmpty
        · refine ⟨fun e' he' => ?_, fun hf => ?_⟩
          · simp [get_fund_data, hc, h1, h2, hemp] at he'
            rw [he'.symm]
            exact he
          · subst hf
            simpa [get_fund_data, hc, h1, h2, hemp, applyFill] using he
        · refine ⟨fun e' he' => ?_, fun hf => ?_⟩
          · simp [get_fund_data, hc, h1, h2, hemp] at he'
            rw [he'.symm]
            exact mergeSeries_sortedDistinct _ _
          · subst hf
            simpa [get_fund_data, hc, h1, h2, hemp, applyFill] using
              mergeSeries_sortedDistinct e.series
                (fetch_fund_data_from_api st.pages).1
      · refine ⟨fun e' he' => ?_, fun hf => ?_⟩
        · simp [get_fund_data, hc, h1, h2] at he'
          rw [he'.symm]
          exact he
        · subst hf
          simpa [get_fund_data, hc, h1, h2, applyFill] using he

/-- C4: every series the data layer produces is duplicate-free and sorted
ascending by date: the full-history fetch result, any incremental merge,
every cache entry `get_fund_data` persists (hence every cache read-back),
and every series it returns unfilled; and merging a cached series whose
dates are `≤ D` with incremental rows dated `> D` is literally the
concatenation — exactly one record per available date, ascending. -/
theorem claim_C4 (pages : List PageResp) (cached newData : List Row)
    (D : ℕ) (st : FundState) (f : Bool) :
    SortedDistinct (fetch_fund_data_from_api pages).1 ∧
    SortedDistinct (mergeSeries cached newData) ∧
    (SortedDistinct cached → SortedDistinct newData →
      (∀ r ∈ cached, r.date ≤ D) → (∀ r ∈ newData, D < r.date) →
      mergeSeries cached newData = cached ++ newData) ∧
    ((∀ e, st.cache = some e → SortedDistinct e.series) →
      (∀ e', (get_fund_data st f).cache' = some e' →
        SortedDistinct e'.series) ∧
      (f = false → SortedDistinct (get_fund_data st f).series)) :=
  ⟨fetch_sortedDistinct pages, mergeSeries_sortedDistinct cached newData,
    fun hc hn hcle hngt => mergeSeries_append hc hn hcle hngt,
    fun hinv => get_fund_data_invariant st f hinv⟩

/-- Witness for C4: a cached series ending at day 1 merged with fresh rows
for days 2 and 3 gives exactly one ascending record per date. -/
theorem claim_C4_witness :
    mergeSeries [⟨0, 1⟩, ⟨1, 2⟩] [⟨2, 3⟩, ⟨3, 4⟩] =
      [⟨0, 1⟩, ⟨1, 2⟩, ⟨2, 3⟩, ⟨3, 4⟩] ∧
    SortedDistinct (mergeSeries [⟨0, 1⟩, ⟨1, 2⟩] [⟨2, 3⟩, ⟨3, 4⟩]) := by
  have h := claim_C4 [] [⟨0, 1⟩, ⟨1, 2⟩] [⟨2, 3⟩, ⟨3, 4⟩] 1
    ⟨none, 0, []⟩ false
  exact ⟨h.2.2.1 (by decide) (by decide) (by decide) (by decide), h.2.1⟩

/-- C10: when the cache entry's `last_update` calendar date equals the
current date, `get_fund_data` with `fill_missing = true` returns the cached
series exactly as stored — the early return precedes the reindex/forward
fill block, so it is not applied, no fetch happens and the cache is left
unchanged. -/
theorem claim_C10 (st : FundState) (e : CacheEntry)
    (hcache : st.cache = some e) (hfresh : e.lastUpdate = st.today) :
    (get_fund_data st true).series = e.series ∧
    (get_fund_data st true).fetched = false ∧
    (get_fund_data st true).cache' = some e := by
  simp [get_fund_data, hcache, hfresh]

/-- Witness for C10: a same-day-fresh cache holding days 0 and 2 is
returned verbatim under `fill_missing = true`; the non-trading day 1 stays
absent from the returned series. -/
theorem claim_C10_witness :
    (get_fund_data ⟨some ⟨[⟨0, 1⟩, ⟨2, 3⟩], 5⟩, 5, []⟩ true).series =
      [⟨0, 1⟩, ⟨2, 3⟩] ∧
    lookupDate
      (get_fund_data ⟨some ⟨[⟨0, 1⟩, ⟨2, 3⟩], 5⟩, 5, []⟩ true).series 1 =
      none := by
  have h := claim_C10 ⟨some ⟨[⟨0, 1⟩, ⟨2, 3⟩], 5⟩, 5, []⟩
    ⟨[⟨0, 1⟩, ⟨2, 3⟩], 5⟩ rfl rfl
  exact ⟨h.1, by decide⟩

/-- C2 counterexample: a present cache entry with `last_update` on day 3
and a record dated day 5, queried on day 4, is stale (3 ≠ 4) yet
`get_fund_data` makes no remote call and returns the cache verbatim —
fresh data for day 6 offered by the remote is ignored, because the fetch
is guarded by `today > cached max date`, not by staleness alone. -/
theorem claim_C2_counterexample :
    (3 : ℕ) ≠ 4 ∧
    (get_fund_data
      ⟨some ⟨[⟨5, 1⟩], 3⟩, 4, [PageResp.table [⟨some 6, some 2⟩]]⟩
      false).fetched = false ∧
    (get_fund_data
      ⟨some ⟨[⟨5, 1⟩], 3⟩, 4, [PageResp.table [⟨some 6, some 2⟩]]⟩
      false).series = [⟨5, 1⟩] := by
  decide

/-- C2 (amended): with a present cache entry, `get_fund_data` skips the
remote call exactly when the entry is same-day-fresh **or** the current
date does not exceed the cached series' max date; whenever it skips (and
no fill is requested), the cached series is returned verbatim and the
cache is untouched.  On the same-day-fresh path this holds for either fill
flag. -/
theorem claim_C2 (st : FundState) (e : CacheEntry) (f : Bool)
    (hcache : st.cache = some e) :
    ((get_fund_data st f).fetched = false ↔
      (e.lastUpdate = st.today ∨ st.today ≤ maxDate e.series)) ∧
    (e.lastUpdate = st.today → (get_fund_data st f).series = e.series) ∧
    ((get_fund_data st f).fetched = false → f = false →
      (get_fund_data st f).series = e.series ∧
      (get_fund_data st f).cache' = some e) := by
  by_cases h1 : e.lastUpdate = st.today
  · simp [get_fund_data, hcache, h1]
  · by_cases h2 : maxDate e.series < st.today
    · have h3 : ¬ st.today ≤ maxDate e.series := by omega
      by_cases hemp : ((fetch_fund_data_from_api st.pages).1).isEmpty
      · simp [get_fund_data, hcache, h1, h2, h3, hemp]
      · simp [get_fund_data, hcache, h1, h2, h3, hemp]
    · have h3 : st.today ≤ maxDate e.series := by omega
      refine ⟨by simp [get_fund_data, hcache, h1, h2, h3], ?_, ?_⟩
      · intro h; exact absurd h h1
      · intro _ hf
        subst hf
        simp [get_fund_data, hcache, h1, h2, applyFill]

/-- Witness for C2 at a same-day-fresh entry: no fetch, verbatim reuse. -/
theorem claim_C2_witness :
    (get_fund_data ⟨some ⟨[⟨0, 1⟩], 7⟩, 7, []⟩ false).fetched = false ∧
    (get_fund_data ⟨some ⟨[⟨0, 1⟩], 7⟩, 7, []⟩ false).series = [⟨0, 1⟩] := by
  have h := claim_C2 ⟨some ⟨[⟨0, 1⟩], 7⟩, 7, []⟩ ⟨[⟨0, 1⟩], 7⟩ false rfl
  exact ⟨h.1.mpr (Or.inl rfl), h.2.1 rfl⟩

/-- C1 counterexample: cache holds day 0 with nav 1 and was last updated
on day 0; on day 1 the incremental fetch returns rows for day 1 (nav 5)
and a revised day 0 (nav 2).  The merged series keeps the **cached** nav 1
for the colliding day 0, not the freshly fetched 2 — `drop_duplicates`
keeps the first occurrence and the cached rows come first. -/
theorem claim_C1_counterexample :
    (fetch_fund_data_from_api
      [PageResp.table [⟨some 1, some 5⟩, ⟨some 0, some 2⟩]]).1 =
      [⟨0, 2⟩, ⟨1, 5⟩] ∧
    (get_fund_data
      ⟨some ⟨[⟨0, 1⟩], 0⟩, 1,
        [PageResp.table [⟨some 1, some 5⟩, ⟨some 0, some 2⟩]]⟩
      false).series = [⟨0, 1⟩, ⟨1, 5⟩] ∧
    lookupDate
      (get_fund_data
        ⟨some ⟨[⟨0, 1⟩], 0⟩, 1,
          [PageResp.table [⟨some 1, some 5⟩, ⟨some 0, some 2⟩]]⟩
        false).series 0 = some 1 ∧
    some (1 : ℚ) ≠ some (2 : ℚ) := by
  decide

/-- C1 (amended): on the incremental-merge path, for every date already in
the (duplicate-free) cached series the merged series persisted and
returned by `get_fund_data` carries the previously cached nav — cache
precedence wins on date collision, the freshly fetched value is dropped. -/
theorem claim_C1 (st : FundState) (e : CacheEntry)
    (hcache : st.cache = some e) (hstale : e.lastUpdate ≠ st.today)
    (hold : maxDate e.series < st.today) (hdist : DistinctDates e.series)
    (hnew : (fetch_fund_data_from_api st.pages).1 ≠ []) :
    (get_fund_data st false).series =
      mergeSeries e.series (fetch_fund_data_from_api st.pages).1 ∧
    (get_fund_data st false).cache' =
      some ⟨mergeSeries e.series (fetch_fund_data_from_api st.pages).1,
        st.today⟩ ∧
    ∀ r ∈ e.series,
      lookupDate (get_fund_data st false).series r.date = some r.nav := by
  have hemp : ((fetch_fund_data_from_api st.pages).1).isEmpty = false := by
    simpa [List.isEmpty_iff] using hnew
  have hser : (get_fund_data st false).series =
      mergeSeries e.series (fetch_fund_data_from_api st.pages).1 := by
    simp [get_fund_data, hcache, hstale, hold, hemp, applyFill]
  refine ⟨hser, ?_, ?_⟩
  · simp [get_fund_data, hcache, hstale, hold, hemp]
  · intro r hr
    rw [hser]
    exact lookupDate_eq_of_mem (mergeSeries_sortedDistinct _ _).distinct
      (cached_mem_merge hdist hr)

/-- Witness for C1: cached day 0 (nav 1) survives a merge with fresh rows
for days 0 (revised) and 1. -/
theorem claim_C1_witness :
    lookupDate
      (get_fund_data
        ⟨some ⟨[⟨0, 1⟩], 0⟩, 1,
          [PageResp.table [⟨some 0, some 2⟩, ⟨some 1, some 5⟩]]⟩
        false).series 0 = some 1 := by
  have h := claim_C1
    ⟨some ⟨[⟨0, 1⟩], 0⟩, 1,
      [PageResp.table [⟨some 0, some 2⟩, ⟨some 1, some 5⟩]]⟩
    ⟨[⟨0, 1⟩], 0⟩ rfl (by decide) (by decide) (by decide) (by decide)
  exact h.2.2 ⟨0, 1⟩ (List.mem_cons_self _ _)

/-! ## Forward-fill lemmas -/

lemma lookupDate_some {df : List Row} {a : ℕ} {v : ℚ}
    (h : lookupDate df a = some v) :
    ∃ r, r ∈ df ∧ r.date = a ∧ r.nav = v := by
  unfold lookupDate at h
  rcases hf : df.find? fun r => r.date == a with _ | r
  · rw [hf] at h; cases h
  · rw [hf] at h
    refine ⟨r, List.mem_of_find?_eq_some hf, ?_, ?_⟩
    · simpa using List.find?_some hf
    · simpa using h

lemma lookupDate_none {df : List Row} {a : ℕ}
    (h : lookupDate df a = none) : ∀ r ∈ df, r.date ≠ a := by
  unfold lookupDate at h
  rcases hf : df.find? fun r => r.date == a with _ | r
  · intro r hr
    have := List.find?_eq_none.mp hf r hr
    simpa using this
  · rw [hf] at h; cases h

/-- Shifting a `≤ d` filter to a `< d + 1` filter. -/
lemma filter_le_eq_filter_lt_succ (df : List Row) (a : ℕ) :
    (df.filter fun r => decide (r.date ≤ a)) =
      df.filter fun r => decide (r.date < a + 1) := by
  refine List.filter_congr fun r _ => ?_
  exact decide_eq_decide.mpr (Nat.lt_succ_iff).symm

/-- When no row is dated `a`, the `≤ a` and `< a` filters agree. -/
lemma filter_le_eq_filter_lt (df : List Row) (a : ℕ)
    (h : ∀ r ∈ df, r.date ≠ a) :
    (df.filter fun r => decide (r.date ≤ a)) =
      df.filter fun r => decide (r.date < a) := by
  refine List.filter_congr fun r hr => ?_
  refine decide_eq_decide.mpr ?_
  exact ⟨fun hle => lt_of_le_of_ne hle (h r hr), le_of_lt⟩

/-- On a sorted duplicate-free series, the row dated exactly `a` is the
last row dated `≤ a`. -/
lemma lastLE_eq_of_mem :
    ∀ {df : List Row} {r : Row} {a : ℕ}, SortedDistinct df → r ∈ df →
      r.date = a → lastLE df a = some r := by
  intro df
  induction df with
  | nil => intro r a _ hr; cases hr
  | cons x xs ih =>
    intro r a hs hr ha
    unfold SortedDistinct at hs
    rw [List.pairwise_cons] at hs
    rcases List.mem_cons.mp hr with h | h
    · subst h
      unfold lastLE
      have hx : decide (r.date ≤ a) = true := by simp [ha]
      have hxs : xs.filter (fun y => decide (y.date ≤ a)) = [] := by
        rw [List.filter_eq_nil_iff]
        intro y hy
        have := hs.1 y hy
        simp only [decide_eq_true_eq]
        omega
      simp [List.filter_cons, hx, hxs]
    · have hxa : decide (x.date ≤ a) = true := by
        have := hs.1 r h
        simp only [decide_eq_true_eq]
        omega
      have hne : xs.filter (fun y => decide (y.date ≤ a)) ≠ [] := by
        intro hnil
        have := List.filter_eq_nil_iff.mp hnil r h
        simp [ha] at this
      unfold lastLE at ih ⊢
      rw [List.filter_cons, if_pos (by simpa using hxa)]
      rcases hfe : xs.filter (fun y => decide (y.date ≤ a)) with _ | ⟨y, ys⟩
      · exact absurd hfe hne
      · rw [hfe, List.getLast?_cons_cons, ← hfe]
        exact ih hs.2 h ha

/-- Every date of a sorted series is at least the head's date. -/
lemma sorted_head_le {x : Row} {xs : List Row}
    (hs : SortedDistinct (x :: xs)) : ∀ r ∈ x :: xs, x.date ≤ r.date := by
  unfold SortedDistinct at hs
  rw [List.pairwise_cons] at hs
  intro r hr
  rcases List.mem_cons.mp hr with h | h
  · rw [h]
  · exact le_of_lt (hs.1 r h)

lemma foldl_min_const :
    ∀ (xs : List Row) (m : ℕ), (∀ r ∈ xs, m ≤ r.date) →
      xs.foldl (fun acc r => min acc r.date) m = m
  | [], _, _ => rfl
  | y :: ys, m, h => by
    rw [List.foldl_cons]
    have hm : min m y.date = m :=
      min_eq_left (h y (List.mem_cons_self y ys))
    rw [hm]
    exact foldl_min_const ys m fun r hr => h r (List.mem_cons_of_mem y hr)

lemma foldl_max_ge :
    ∀ (xs : List Row) (m : ℕ), m ≤ xs.foldl (fun acc r => max acc r.date) m
  | [], _ => le_refl _
  | y :: ys, m => by
    rw [List.foldl_cons]
    exact le_trans (le_max_left m y.date) (foldl_max_ge ys (max m y.date))

/-- On a sorted series the min date is the head's date. -/
lemma minDate_sorted {x : Row} {xs : List Row}
    (hs : SortedDistinct (x :: xs)) : minDate (x :: xs) = x.date := by
  unfold minDate
  exact foldl_min_const xs x.date fun r hr =>
    sorted_head_le hs r (List.mem_cons_of_mem x hr)

lemma minDate_le_maxDate {df : List Row} (h : df ≠ []) :
    minDate df ≤ maxDate df := by
  rcases df with _ | ⟨x, xs⟩
  · exact absurd rfl h
  · unfold minDate maxDate
    calc xs.foldl (fun acc r => min acc r.date) x.date
        ≤ x.date := by
          have : ∀ (ys : List Row) (m : ℕ),
              ys.foldl (fun acc r => min acc r.date) m ≤ m := by
            intro ys
            induction ys with
            | nil => intro m; exact le_refl m
            | cons y ys ih =>
              intro m
              rw [List.foldl_cons]
              exact le_trans (ih _) (min_le_left m y.date)
          exact this xs x.date
      _ ≤ xs.foldl (fun acc r => max acc r.date) x.date := foldl_max_ge xs x.date

/-- The core forward-fill characterisation: walking days `a, …, a+k-1`
with the carried value of the days before `a`, each day yields one row
valued at the most recent row dated at or before it (or is skipped when
there is none yet). -/
lemma ffillGo_spec {df : List Row} (hs : SortedDistinct df) :
    ∀ (k a : ℕ) (last : Option ℚ),
      last = (lastLT df a).map Row.nav →
      ffillGo df last (List.range' a k) =
        (List.range' a k).filterMap fun d =>
          (lastLE df d).map fun r => (⟨d, r.nav⟩ : Row) := by
  intro k
  induction k with
  | zero => intro a last _; rfl
  | succ k ih =>
    intro a last hlast
    rw [List.range'_succ, ffillGo, List.filterMap_cons]
    have h1 : lastLT df (a + 1) = lastLE df a := by
      unfold lastLT lastLE
      rw [filter_le_eq_filter_lt_succ df a]
    rcases hl : lookupDate df a with _ | v
    · have hnot : ∀ r ∈ df, r.date ≠ a := lookupDate_none hl
      have hle_lt : lastLE df a = lastLT df a := by
        unfold lastLE lastLT
        rw [filter_le_eq_filter_lt df a hnot]
      have hnext : (lastLT df (a + 1)).map Row.nav = last := by
        rw [h1, hle_lt, hlast]
      have hstep : ffillStep df last a = last := by
        simp [ffillStep, hl]
      rw [hstep]
      have hfa : (lastLE df a).map (fun r => (⟨a, r.nav⟩ : Row)) =
          last.map fun v => (⟨a, v⟩ : Row) := by
        rw [hle_lt, hlast]
        rcases lastLT df a with _ | r
        · rfl
        · rfl
      rw [hfa]
      rcases hlv : last with _ | v
      · exact ih (a + 1) none (by rw [hnext, hlv])
      · exact congrArg (List.cons ⟨a, v⟩)
          (ih (a + 1) (some v) (by rw [hnext, hlv]))
    · obtain ⟨r, hrmem, hrdate, hrnav⟩ := lookupDate_some hl
      have hle : lastLE df a = some r := lastLE_eq_of_mem hs hrmem hrdate
      have hnext : (lastLT df (a + 1)).map Row.nav = some v := by
        rw [h1, hle]
        simp [hrnav]
      have hstep : ffillStep df last a = some v := by
        simp [ffillStep, hl]
      rw [hstep, hle]
      have hrow : (⟨a, r.nav⟩ : Row) = ⟨a, v⟩ := by rw [hrnav]
      simp only [Option.map_some', hrow]
      exact congrArg (List.cons ⟨a, v⟩) (ih (a + 1) (some v) hnext.symm)

/-- `fillMissing` of a non-empty sorted series is the day-by-day most
recent-value table over its calendar span. -/
lemma fillMissing_eq {df : List Row} (hs : SortedDistinct df)
    (hne : df ≠ []) :
    fillMissing df =
      (dateRange (minDate df) (maxDate df)).filterMap fun d =>
        (lastLE df d).map fun r => (⟨d, r.nav⟩ : Row) := by
  rcases hdf : df with _ | ⟨x, xs⟩
  · exact absurd hdf hne
  · rw [← hdf]
    have hfill : fillMissing df =
        ffillGo df none (dateRange (minDate df) (maxDate df)) := by
      rw [hdf]; rfl
    rw [hfill]
    unfold dateRange
    refine ffillGo_spec hs _ (minDate df) none ?_
    have : lastLT df (minDate df) = none := by
      unfold lastLT
      have : df.filter (fun r => decide (r.date < minDate df)) = [] := by
        rw [List.filter_eq_nil_iff]
        intro r hr
        have hmin : minDate df ≤ r.date := by
          rw [hdf] at hr ⊢
          rw [minDate_sorted (hdf ▸ hs)]
          exact sorted_head_le (hdf ▸ hs) r hr
        simp only [decide_eq_true_eq]
        omega
      rw [this]
      rfl
    rw [this]
    rfl

/-- On every path except the same-day-fresh early return, the series
returned with `fill_missing = true` is the forward fill of the series the
same call would return unfilled. -/
lemma get_fund_data_fill (st : FundState)
    (hnofresh : ∀ e, st.cache = some e → e.lastUpdate ≠ st.today) :
    (get_fund_data st true).series =
      fillMissing (get_fund_data st false).series := by
  rcases hc : st.cache with _ | e
  · simp [get_fund_data, hc, applyFill]
  · have h1 : e.lastUpdate ≠ st.today := hnofresh e hc
    by_cases h2 : maxDate e.series < st.today
    · by_cases hemp : ((fetch_fund_data_from_api st.pages).1).isEmpty
      · simp [get_fund_data, hc, h1, h2, hemp, applyFill]
      · simp [get_fund_data, hc, h1, h2, hemp, applyFill]
    · simp [get_fund_data, hc, h1, h2, applyFill]

/-- C3 counterexample: with a same-day-fresh cache holding trading days 0
and 2, `get_fund_data` called with `fill_missing = true` returns the cache
verbatim; calendar day 1 lies strictly between the returned series' min
and max dates yet carries no nav at all — so the claim's guarantee fails
on this path. -/
theorem claim_C3_counterexample :
    (get_fund_data ⟨some ⟨[⟨0, 1⟩, ⟨2, 3⟩], 7⟩, 7, []⟩ true).series =
      [⟨0, 1⟩, ⟨2, 3⟩] ∧
    minDate (get_fund_data ⟨some ⟨[⟨0, 1⟩, ⟨2, 3⟩], 7⟩, 7, []⟩ true).series
      = 0 ∧
    maxDate (get_fund_data ⟨some ⟨[⟨0, 1⟩, ⟨2, 3⟩], 7⟩, 7, []⟩ true).series
      = 2 ∧
    lookupDate
      (get_fund_data ⟨some ⟨[⟨0, 1⟩, ⟨2, 3⟩], 7⟩, 7, []⟩ true).series 1 =
      none := by
  decide

/-- C3 (amended): whenever the same-day-fresh shortcut is *not* taken
(and the cache, if any, is duplicate-free and sorted, the invariant the
data layer maintains), the non-empty series returned by `get_fund_data`
with `fill_missing = true` is the calendar-day forward fill of the
unfilled series: every calendar day between the unfilled series' min and
max dates carries exactly the nav of the most recent trading day at or
before it, and no day outside that span appears. -/
theorem claim_C3 (st : FundState)
    (hnofresh : ∀ e, st.cache = some e → e.lastUpdate ≠ st.today)
    (hinv : ∀ e, st.cache = some e → SortedDistinct e.series) :
    (get_fund_data st true).series =
      fillMissing (get_fund_data st false).series ∧
    ((get_fund_data st false).series ≠ [] →
      (∀ d, minDate (get_fund_data st false).series ≤ d →
        d ≤ maxDate (get_fund_data st false).series →
        ∃ r, r ∈ (get_fund_data st true).series ∧ r.date = d ∧
          some r.nav =
            (lastLE (get_fund_data st false).series d).map Row.nav) ∧
      (∀ r ∈ (get_fund_data st true).series,
        minDate (get_fund_data st false).series ≤ r.date ∧
        r.date ≤ maxDate (get_fund_data st false).series)) := by
  have hfill := get_fund_data_fill st hnofresh
  have hsd : SortedDistinct (get_fund_data st false).series :=
    (get_fund_data_invariant st false hinv).2 rfl
  refine ⟨hfill, fun hne => ⟨?_, ?_⟩⟩
  · intro d hmin hmax
    rw [hfill, fillMissing_eq hsd hne]
    have hdmem : d ∈ dateRange
        (minDate (get_fund_data st false).series)
        (maxDate (get_fund_data st false).series) := by
      unfold dateRange
      rw [List.mem_range'_1]
      have := minDate_le_maxDate hne
      omega
    obtain ⟨r0, hr0⟩ : ∃ r0,
        lastLE (get_fund_data st false).series d = some r0 := by
      rcases hdf : (get_fund_data st false).series with _ | ⟨x, xs⟩
      · exact absurd hdf hne
      · have hxle : x.date ≤ d := by
          have := minDate_sorted (hdf ▸ hsd)
          rw [hdf] at hmin
          omega
        have hxin : x ∈ (x :: xs).filter fun r => decide (r.date ≤ d) :=
          List.mem_filter.mpr ⟨List.mem_cons_self x xs, by simpa using hxle⟩
        have hfne : (x :: xs).filter (fun r => decide (r.date ≤ d)) ≠ [] :=
          List.ne_nil_of_mem hxin
        obtain ⟨r0, hr0⟩ :=
          Option.isSome_iff_exists.mp (List.getLast?_isSome.mpr hfne)
        exact ⟨r0, hr0⟩
    refine ⟨⟨d, r0.nav⟩, ?_, rfl, by rw [hr0]; rfl⟩
    exact List.mem_filterMap.mpr ⟨d, hdmem, by rw [hr0]; rfl⟩
  · intro r hr
    rw [hfill, fillMissing_eq hsd hne] at hr
    obtain ⟨d, hd, hfd⟩ := List.mem_filterMap.mp hr
    unfold dateRange at hd
    rw [List.mem_range'_1] at hd
    have hrd : r.date = d := by
      rcases hx : lastLE (get_fund_data st false).series d with _ | r0
      · rw [hx] at hfd; cases hfd
      · rw [hx] at hfd
        simp only [Option.map_some', Option.some.injEq] at hfd
        rw [← hfd]
    have := minDate_le_maxDate hne
    omega

/-- Witness for C3 on the no-cache path: fetching days 0 and 2 and filling
produces a value for the non-trading day 1, equal to day 0's nav. -/
theorem claim_C3_witness :
    (get_fund_data
      ⟨none, 7, [PageResp.table [⟨some 0, some 1⟩, ⟨some 2, some 3⟩]]⟩
      true).series = [⟨0, 1⟩, ⟨1, 1⟩, ⟨2, 3⟩] ∧
    ∃ r, r ∈ (get_fund_data
        ⟨none, 7, [PageResp.table [⟨some 0, some 1⟩, ⟨some 2, some 3⟩]]⟩
        true).series ∧ r.date = 1 ∧
      some r.nav =
        (lastLE (get_fund_data
          ⟨none, 7, [PageResp.table [⟨some 0, some 1⟩, ⟨some 2, some 3⟩]]⟩
          false).series 1).map Row.nav := by
  have h := claim_C3
    ⟨none, 7, [PageResp.table [⟨some 0, some 1⟩, ⟨some 2, some 3⟩]]⟩
    (fun e he => Option.noConfusion he) (fun e he => Option.noConfusion he)
  exact ⟨by decide, (h.2 (by decide)).1 1 (by decide) (by decide)⟩

/-! ## Drawdown lemmas -/

lemma foldl_min_le_init : ∀ (xs : List ℚ) (m : ℚ), xs.foldl min m ≤ m
  | [], _ => le_refl _
  | y :: ys, m => by
    rw [List.foldl_cons]
    exact le_trans (foldl_min_le_init ys (min m y)) (min_le_left m y)

lemma listMin_le_head (x : ℚ) (xs : List ℚ) : listMin (x :: xs) ≤ x :=
  foldl_min_le_init xs x

/-- Zipping a list with its seeded running maxima is the same as indexing:
entry `t` pairs `xs[t]` with the maximum of the seed and the first `t+1`
entries. -/
lemma zipWith_accumMax (f : ℚ → ℚ → ℚ) :
    ∀ (xs : List ℚ) (m : ℚ),
      List.zipWith f xs (accumMax m xs) =
        (List.range xs.length).map fun t =>
          f (xs.getD t 0) ((xs.take (t + 1)).foldl max m)
  | [], _ => rfl
  | y :: ys, m => by
    rw [accumMax, List.zipWith_cons_cons, zipWith_accumMax f ys (max m y)]
    rw [List.length_cons, List.range_succ_eq_map, List.map_cons,
      List.map_map]
    congr 1

lemma runningMax_zip (f : ℚ → ℚ → ℚ) (x : ℚ) (xs : List ℚ) :
    List.zipWith f (x :: xs) (runningMax (x :: xs)) =
      (List.range (x :: xs).length).map fun t =>
        f ((x :: xs).getD t 0) (cumMax (x :: xs) t) := by
  rw [runningMax, List.zipWith_cons_cons, zipWith_accumMax f xs x]
  rw [List.length_cons, List.range_succ_eq_map, List.map_cons, List.map_map]
  congr 1

/-- C7: for a non-empty positive NAV series, `calculate_max_drawdown`
computes exactly the claim's formula (min over `t` of
`(nav[t] − running_max[t]) / running_max[t]`, ×100, with `running_max`
the cumulative maximum up to and including `t`), the result is ≤ 0, and
the drawdown at any running-maximum point is 0. -/
theorem claim_C7 (s : List ℚ) (hne : s ≠ []) (hpos : ∀ x ∈ s, 0 < x) :
    calculate_max_drawdown s = drawdownSpec s ∧
    calculate_max_drawdown s ≤ 0 ∧
    ∀ t, t < s.length → s.getD t 0 = cumMax s t → drawdownAt s t = 0 := by
  rcases s with _ | ⟨x, xs⟩
  · exact absurd rfl hne
  · have hzip := runningMax_zip (fun n m => (n - m) / m) x xs
    have heq : calculate_max_drawdown (x :: xs) = drawdownSpec (x :: xs) := by
      unfold calculate_max_drawdown drawdownSpec
      rw [hzip]
      rfl
    refine ⟨heq, ?_, ?_⟩
    · unfold calculate_max_drawdown
      rw [runningMax, List.zipWith_cons_cons]
      have hhead : (x - x) / x = 0 := by
        rw [sub_self, zero_div]
      rw [hhead]
      have hmin : listMin (0 :: List.zipWith (fun n m => (n - m) / m) xs
          (accumMax x xs)) ≤ 0 := listMin_le_head 0 _
      have := mul_le_mul_of_nonneg_right hmin (by norm_num : (0 : ℚ) ≤ 100)
      simpa using this
    · intro t _ ht
      unfold drawdownAt
      rw [ht, sub_self, zero_div]

/-- Witness for C7 at the spec's scenario `[1.0, 1.2, 0.9, 1.1]`: the max
drawdown is −25.0 %, which is ≤ 0. -/
theorem claim_C7_witness :
    calculate_max_drawdown [1, 6/5, 9/10, 11/10] = -25 ∧
    calculate_max_drawdown [1, 6/5, 9/10, 11/10] ≤ 0 ∧
    drawdownSpec [1, 6/5, 9/10, 11/10] = -25 := by
  have h := claim_C7 [1, 6/5, 9/10, 11/10] (by decide) (by norm_num)
  have hval : calculate_max_drawdown [1, 6/5, 9/10, 11/10] = -25 := by
    norm_num [calculate_max_drawdown, runningMax, accumMax, listMin,
      max_def, min_def]
  refine ⟨hval, h.2.1, ?_⟩
  rw [← h.1]
  exact hval

/-! ## Annualized-return claims -/

/-- C8 counterexample: for the claim's literal scenario series — two rows,
1.0000 at day 0 and 1.1000 at day 252 — `calculate_annual_return` with
`periods_per_year = 252` uses `days = len(nav_series) = 2`, so the float
it denotes is `(1.1 ^ 126 − 1) × 100`, which exceeds 1000 % and is nowhere
near the claimed ≈ 10.00 %. -/
theorem claim_C8_counterexample :
    (calculate_annual_return [1, 11/10] 252).1 = 11/10 ∧
    (calculate_annual_return [1, 11/10] 252).2 = 126 ∧
    1000 < (((calculate_annual_return [1, 11/10] 252).1 : ℝ) ^
      (((calculate_annual_return [1, 11/10] 252).2 : ℚ) : ℝ) - 1) * 100 ∧
    (((calculate_annual_return [1, 11/10] 252).1 : ℝ) ^
      (((calculate_annual_return [1, 11/10] 252).2 : ℚ) : ℝ) - 1) * 100
      ≠ 10 := by
  have h1 : (calculate_annual_return [1, 11/10] 252).1 = 11/10 := by
    norm_num [calculate_annual_return]
  have h2 : (calculate_annual_return [1, 11/10] 252).2 = 126 := by
    norm_num [calculate_annual_return]
  have hkey : (1000 : ℝ) <
      (((11/10 : ℚ) : ℝ) ^ (((126 : ℚ) : ℝ)) - 1) * 100 := by
    have hc : (((126 : ℚ) : ℝ)) = ((126 : ℕ) : ℝ) := by norm_num
    rw [hc, Real.rpow_natCast]
    have hq : (11 : ℚ) < (11/10 : ℚ) ^ (26 : ℕ) := by norm_num
    have hle : ((11/10 : ℚ) : ℝ) ^ (26 : ℕ) ≤ ((11/10 : ℚ) : ℝ) ^ (126 : ℕ) :=
      pow_le_pow_right₀ (by norm_num) (by norm_num)
    have h11 : (11 : ℝ) < ((11/10 : ℚ) : ℝ) ^ (26 : ℕ) := by
      calc (11 : ℝ) < (((11/10 : ℚ) ^ (26 : ℕ) : ℚ) : ℝ) := by
            exact_mod_cast hq
        _ = ((11/10 : ℚ) : ℝ) ^ (26 : ℕ) := by push_cast; ring
    nlinarith
  refine ⟨h1, h2, ?_, ?_⟩
  · rw [h1, h2]
    exact hkey
  · rw [h1, h2]
    have := hkey
    intro hbad
    rw [hbad] at this
    norm_num at this

/-- C8 (amended): `calculate_annual_return` computes
`(1 + total_return) ^ (periods_per_year / days) − 1, × 100` with
`total_return = nav[last]/nav[first] − 1` — but `days` is the **row
count** `len(nav_series)`, not a date span.  The ≈ 10 % scenario holds for
a series of 252 rows from 1.0 to 1.1 (exponent 252/252 = 1): the result is
then exactly 10 %. -/
theorem claim_C8 (s : List ℚ) (hlen : s.length = 252)
    (hhead : s.head? = some 1) (hlast : s.getLast? = some (11/10)) :
    (calculate_annual_return s 252).1 = 11/10 ∧
    (calculate_annual_return s 252).2 = 1 ∧
    (((calculate_annual_return s 252).1 : ℝ) ^
      (((calculate_annual_return s 252).2 : ℚ) : ℝ) - 1) * 100 = 10 := by
  have hh : s.headD 0 = 1 := by
    rw [List.headD_eq_head?, hhead]
    rfl
  have hg : s.getLastD 0 = 11/10 := by
    rw [List.getLastD_eq_getLast?, hlast]
    rfl
  have h1 : (calculate_annual_return s 252).1 = 11/10 := by
    unfold calculate_annual_return
    rw [hh, hg]
    norm_num
  have h2 : (calculate_annual_return s 252).2 = 1 := by
    unfold calculate_annual_return
    rw [hlen]
    norm_num
  refine ⟨h1, h2, ?_⟩
  rw [h1, h2]
  have hc : (((1 : ℚ) : ℝ)) = (1 : ℝ) := by norm_num
  rw [hc, Real.rpow_one]
  push_cast
  norm_num

/-- Witness for C8: a 252-row daily series from 1.0 to 1.1 annualizes to
exactly 10 %. -/
theorem claim_C8_witness :
    (calculate_annual_return (1 :: (List.replicate 250 (1 : ℚ) ++ [11/10]))
      252).2 = 1 ∧
    (((calculate_annual_return
        (1 :: (List.replicate 250 (1 : ℚ) ++ [11/10])) 252).1 : ℝ) ^
      (((calculate_annual_return
        (1 :: (List.replicate 250 (1 : ℚ) ++ [11/10])) 252).2 : ℚ) : ℝ)
      - 1) * 100 = 10 := by
  have hlen : (1 :: (List.replicate 250 (1 : ℚ) ++ [11/10])).length = 252 := by
    rw [List.length_cons, List.length_append, List.length_replicate,
      List.length_singleton]
  have hlast : (1 :: (List.replicate 250 (1 : ℚ) ++ [11/10])).getLast? =
      some (11/10) := by
    rw [← List.cons_append, List.getLast?_concat]
  have h := claim_C8 (1 :: (List.replicate 250 (1 : ℚ) ++ [11/10]))
    hlen rfl hlast
  exact ⟨h.2.1, h.2.2⟩

/-! ## Insufficient-window claims -/

/-- C9 counterexample: a window holding exactly one row (nav 2, a single
day) is *not* reported as insufficient: `display_fund_analysis` answers on
the ordinary success channel with annualized-return parts `(1, 252)` —
whose float value `(1 ^ 252 − 1) × 100` is a silent 0 % — and volatility
`none`, i.e. the NaN that `0.0 / (trading_days − 1) = 0.0 / 0` produces
and the UI renders as `nan%`.  `calculate_volatility` likewise yields NaN.
The error branch exists but is reserved for an empty window. -/
theorem claim_C9_counterexample :
    display_fund_analysis false [2] 10 10 =
      Except.ok (Sum.inr ⟨0, (1, 252), none, 0⟩) ∧
    windowVolatility [2] = none ∧
    calculate_volatility [2] 252 = none ∧
    (((1 : ℚ) : ℝ) ^ (((252 : ℚ) : ℝ)) - 1) * 100 = 0 := by
  refine ⟨?_, rfl, rfl, ?_⟩
  · norm_num [display_fund_analysis, windowVolatility, windowMaxDrawdown,
      runningMax, accumMax, listMin]
  · norm_num [Real.one_rpow]

/-- C9 (amended): the metric block distinguishes only the empty window
(or inverted dates), via the `st.error` branch; a one-row window sails
through the success branch with annualized-return parts `(1, 252)` (float
value 0 %, a silent zero) and NaN volatility — there is no distinguishable
"insufficient data" signal for windows with fewer than 2 rows, and
`calculate_volatility` returns NaN (`none`) there as well. -/
theorem claim_C9 (x : ℚ) (hx : x ≠ 0) (startD endD : ℕ)
    (hle : startD ≤ endD) :
    display_fund_analysis false [x] startD endD =
      Except.ok (Sum.inr ⟨0, (1, 252), none, 0⟩) ∧
    (∀ s e : ℕ, display_fund_analysis false ([] : List ℚ) s e =
      Except.error "请选择有效的投资区间") ∧
    calculate_volatility [x] 252 = none := by
  refine ⟨?_, fun s e => rfl, rfl⟩
  have hnlt : ¬ endD < startD := Nat.not_lt.mpr hle
  norm_num [display_fund_analysis, hnlt, windowVolatility,
    windowMaxDrawdown, runningMax, accumMax, listMin, div_self hx]

/-- Witness for C9 at nav 2 over days 1–5. -/
theorem claim_C9_witness :
    display_fund_analysis false [2] 1 5 =
      Except.ok (Sum.inr ⟨0, (1, 252), none, 0⟩) ∧
    calculate_volatility [2] 252 = none := by
  have h := claim_C9 2 (by decide) 1 5 (by decide)
  exact ⟨h.1, h.2.2⟩

end Fund
